import Mathlib

/-!
Shallow embedding of the grid-composition logic of the custom deck builder
(`src/src/App/App.tsx`), together with proofs of the specified properties.

JavaScript numbers that the program only ever holds integer values in are
modelled as `ℤ` (a `parseInt` result that may be `NaN` is modelled as
`Option ℤ`, `none` standing for `NaN`).  `Math.floor(p / cols)` on integers
is `Int.fdiv`, and the JavaScript remainder `p % cols` (sign of the
dividend) is `Int.tmod`.  The decoded `HTMLImageElement` handle is
abstracted as a `ℕ` tag; a canvas pixel records what was last painted on
it, which is the level of detail the properties speak about.
-/

namespace DeckBuilder

/-- `interface ImageData` (App.tsx lines 4-10). -/
structure ImageData where
  id : ℤ
  src : String
  image : ℕ
  name : String
  position : ℤ
deriving DecidableEq

/-- `interface GridSize` (App.tsx lines 12-15). -/
structure GridSize where
  rows : ℤ
  cols : ℤ
deriving DecidableEq

/-- `interface CellDimensions` (App.tsx lines 17-20). -/
structure CellDimensions where
  width : ℤ
  height : ℤ
deriving DecidableEq

/-- `const MTG_RATIO = 7/5` (App.tsx line 22), as an exact rational. -/
def MTG_RATIO : ℚ := 7 / 5

/-- `const customHeight = Math.round(customWidth * MTG_RATIO)` (App.tsx line 30).
`Math.round` rounds half-way cases toward positive infinity, which is
Mathlib's `round`. -/
def customHeight (customWidth : ℤ) : ℤ :=
  round ((customWidth : ℚ) * MTG_RATIO)

/-- `getActualCellDimensions` (App.tsx lines 36-38). -/
def getActualCellDimensions (customWidth : ℤ) : CellDimensions :=
  { width := customWidth, height := customHeight customWidth }

/-- JavaScript `v || d` on a possibly-`NaN` number `v`: `NaN` and `0` are
falsy and give the default, every other integer is truthy. -/
def jsOr (v : Option ℤ) (d : ℤ) : ℤ :=
  match v with
  | none => d
  | some n => if n = 0 then d else n

/-- Content of one physical canvas pixel: untouched/cleared, grid line, or
covered by the scaled drawing of the image with the given handle. -/
inductive Pixel where
  | blank : Pixel
  | line : Pixel
  | img : ℕ → Pixel
deriving DecidableEq

/-- A `<canvas>` element: physical buffer size (`canvas.width/height`),
CSS display size (`canvas.style.width/height`, in px), and the buffer
contents, indexed by physical pixel coordinates.  Only coordinates inside
`[0, width) × [0, height)` exist; drawing is clipped to them. -/
@[ext]
structure Canvas where
  width : ℤ
  height : ℤ
  styleWidth : ℤ
  styleHeight : ℤ
  pixels : ℤ × ℤ → Pixel

/-- Membership of a point in the half-open rectangle at `(x, y)` of size
`w × h`. -/
def inRectB (x y w h : ℤ) (q : ℤ × ℤ) : Bool :=
  decide (x ≤ q.1) && decide (q.1 < x + w) &&
    decide (y ≤ q.2) && decide (q.2 < y + h)

/-- Whether a physical coordinate lies inside the canvas buffer. -/
def Canvas.inBoundsB (c : Canvas) (q : ℤ × ℤ) : Bool :=
  decide (0 ≤ q.1) && decide (q.1 < c.width) &&
    decide (0 ≤ q.2) && decide (q.2 < c.height)

/-- Paint the axis-aligned rectangle at `(x, y)` of size `w × h` (physical
coordinates) with pixel value `p`, clipped to the canvas buffer.  Both
`ctx.drawImage` (which stretches the source image over the rectangle),
`ctx.clearRect` and the stroked grid-line bands are instances of this. -/
def Canvas.fillRect (c : Canvas) (x y w h : ℤ) (p : Pixel) : Canvas :=
  { c with pixels := fun q => if c.inBoundsB q && inRectB x y w h q then p else c.pixels q }

/-- Assigning `canvas.width`/`canvas.height` (App.tsx lines 79-80): resizes
the physical buffer and resets every pixel to transparent. -/
def Canvas.setBufferSize (c : Canvas) (w h : ℤ) : Canvas :=
  { width := w, height := h, styleWidth := c.styleWidth, styleHeight := c.styleHeight,
    pixels := fun _ => Pixel.blank }

/-- Assigning `canvas.style.width`/`canvas.style.height` (App.tsx lines 81-82). -/
def Canvas.setStyleSize (c : Canvas) (w h : ℤ) : Canvas :=
  { c with styleWidth := w, styleHeight := h }

/-- `const devicePixelRatio = 2` (App.tsx line 77). -/
def dpr : ℤ := 2

/-- `Math.floor(imgData.position / gridSize.cols)` (App.tsx line 111). -/
def entryRow (gs : GridSize) (e : ImageData) : ℤ :=
  e.position.fdiv gs.cols

/-- `imgData.position % gridSize.cols` (App.tsx line 112), the JavaScript
remainder, whose sign follows the dividend. -/
def entryCol (gs : GridSize) (e : ImageData) : ℤ :=
  e.position.tmod gs.cols

/-- The body of the per-image loop of `drawCanvas` (App.tsx lines 110-125):
derive `(row, col)` from the position, and when `row < rows && col < cols`
draw the image stretched over the cell rectangle
`(col*cellWidth, row*cellHeight, cellWidth, cellHeight)` — in physical
coordinates everything is scaled by `dpr` because of `ctx.scale`. -/
def drawEntry (gs : GridSize) (cd : CellDimensions) (c : Canvas) (e : ImageData) : Canvas :=
  let row := entryRow gs e
  let col := entryCol gs e
  if row < gs.rows ∧ col < gs.cols then
    c.fillRect (dpr * (col * cd.width)) (dpr * (row * cd.height))
      (dpr * cd.width) (dpr * cd.height) (Pixel.img e.image)
  else c

/-- `drawCanvas` (App.tsx lines 66-126): size the buffer (2× oversampling),
set the CSS size, clear, stroke the separator lines (`lineWidth` 2, so a
band one logical unit to each side of the cell boundary), then draw every
image in list order. -/
def drawCanvas (images : List ImageData) (gridSize : GridSize)
    (cellDimensions : CellDimensions) (canvas : Canvas) : Canvas :=
  let cellWidth := cellDimensions.width
  let cellHeight := cellDimensions.height
  let totalWidth := gridSize.cols * cellWidth
  let totalHeight := gridSize.rows * cellHeight
  let c1 := canvas.setBufferSize (totalWidth * dpr) (totalHeight * dpr)
  let c2 := c1.setStyleSize totalWidth totalHeight
  let c3 := c2.fillRect 0 0 (dpr * totalWidth) (dpr * totalHeight) Pixel.blank
  let c4 := (List.range (gridSize.cols + 1).toNat).foldl (fun c i =>
    c.fillRect (dpr * ((i : ℤ) * cellWidth) - 2) 0 (2 * dpr) (dpr * totalHeight) Pixel.line) c3
  let c5 := (List.range (gridSize.rows + 1).toNat).foldl (fun c i =>
    c.fillRect 0 (dpr * ((i : ℤ) * cellHeight) - 2) (dpr * totalWidth) (2 * dpr) Pixel.line) c4
  images.foldl (fun c imgData => drawEntry gridSize cellDimensions c imgData) c5

/-- One completed image load inside `handleImageUpload` (App.tsx lines
51-57): append an entry whose id is `Date.now() + index` (`now` is the
clock reading at the moment the load callback runs, `index` the file's
index in the selected batch) and whose position is the current list
length. -/
def addImage (prev : List ImageData) (now : ℤ) (index : ℕ) (src : String)
    (img : ℕ) (name : String) : List ImageData :=
  prev ++ [{ id := now + index, src := src, image := img, name := name,
             position := prev.length }]

/-- `moveImage` (App.tsx lines 133-137). -/
def moveImage (prev : List ImageData) (imageId : ℤ) (newPosition : ℤ) : List ImageData :=
  prev.map fun img => if img.id = imageId then { img with position := newPosition } else img

/-- `removeImage` (App.tsx lines 139-141). -/
def removeImage (prev : List ImageData) (imageId : ℤ) : List ImageData :=
  prev.filter fun img => img.id != imageId

/-- `clearAll` (App.tsx lines 143-145). -/
def clearAll : List ImageData := []

/-- `prev.map((img, index) => ({ ...img, position: index }))` with the
running index made explicit. -/
def autoArrangeFrom (index : ℕ) : List ImageData → List ImageData
  | [] => []
  | img :: rest => { img with position := (index : ℤ) } :: autoArrangeFrom (index + 1) rest

/-- `autoArrange` (App.tsx lines 157-159). -/
def autoArrange (prev : List ImageData) : List ImageData :=
  autoArrangeFrom 0 prev

/-- `handleGridRowsChange` (App.tsx lines 161-163):
`rows := parseInt(value) || 1`. -/
def handleGridRowsChange (gs : GridSize) (input : Option ℤ) : GridSize :=
  { gs with rows := jsOr input 1 }

/-- `handleGridColsChange` (App.tsx lines 165-167):
`cols := parseInt(value) || 1`. -/
def handleGridColsChange (gs : GridSize) (input : Option ℤ) : GridSize :=
  { gs with cols := jsOr input 1 }

/-- `handlePositionChange` (App.tsx lines 173-175):
`moveImage(imageId, parseInt(value) - 1 || 0)`; `NaN - 1` is `NaN`. -/
def handlePositionChange (images : List ImageData) (imageId : ℤ)
    (input : Option ℤ) : List ImageData :=
  moveImage images imageId (jsOr (input.map fun n => n - 1) 0)

/-! ### Helper lemmas -/

theorem fillRect_width (c : Canvas) (x y w h : ℤ) (p : Pixel) :
    (c.fillRect x y w h p).width = c.width := rfl

theorem fillRect_height (c : Canvas) (x y w h : ℤ) (p : Pixel) :
    (c.fillRect x y w h p).height = c.height := rfl

theorem fillRect_styleWidth (c : Canvas) (x y w h : ℤ) (p : Pixel) :
    (c.fillRect x y w h p).styleWidth = c.styleWidth := rfl

theorem fillRect_styleHeight (c : Canvas) (x y w h : ℤ) (p : Pixel) :
    (c.fillRect x y w h p).styleHeight = c.styleHeight := rfl

theorem drawEntry_width (gs : GridSize) (cd : CellDimensions) (c : Canvas) (e : ImageData) :
    (drawEntry gs cd c e).width = c.width := by
  simp only [drawEntry]
  split <;> rfl

theorem drawEntry_height (gs : GridSize) (cd : CellDimensions) (c : Canvas) (e : ImageData) :
    (drawEntry gs cd c e).height = c.height := by
  simp only [drawEntry]
  split <;> rfl

theorem drawEntry_styleWidth (gs : GridSize) (cd : CellDimensions) (c : Canvas) (e : ImageData) :
    (drawEntry gs cd c e).styleWidth = c.styleWidth := by
  simp only [drawEntry]
  split <;> rfl

theorem drawEntry_styleHeight (gs : GridSize) (cd : CellDimensions) (c : Canvas) (e : ImageData) :
    (drawEntry gs cd c e).styleHeight = c.styleHeight := by
  simp only [drawEntry]
  split <;> rfl

theorem foldl_width {α : Type} (f : Canvas → α → Canvas) (l : List α) (c : Canvas)
    (hf : ∀ c a, (f c a).width = c.width) :
    (l.foldl f c).width = c.width := by
  induction l generalizing c with
  | nil => rfl
  | cons a t ih => rw [List.foldl_cons, ih, hf]

theorem foldl_height {α : Type} (f : Canvas → α → Canvas) (l : List α) (c : Canvas)
    (hf : ∀ c a, (f c a).height = c.height) :
    (l.foldl f c).height = c.height := by
  induction l generalizing c with
  | nil => rfl
  | cons a t ih => rw [List.foldl_cons, ih, hf]

theorem foldl_styleWidth {α : Type} (f : Canvas → α → Canvas) (l : List α) (c : Canvas)
    (hf : ∀ c a, (f c a).styleWidth = c.styleWidth) :
    (l.foldl f c).styleWidth = c.styleWidth := by
  induction l generalizing c with
  | nil => rfl
  | cons a t ih => rw [List.foldl_cons, ih, hf]

theorem foldl_styleHeight {α : Type} (f : Canvas → α → Canvas) (l : List α) (c : Canvas)
    (hf : ∀ c a, (f c a).styleHeight = c.styleHeight) :
    (l.foldl f c).styleHeight = c.styleHeight := by
  induction l generalizing c with
  | nil => rfl
  | cons a t ih => rw [List.foldl_cons, ih, hf]

theorem drawCanvas_width (l : List ImageData) (gs : GridSize) (cd : CellDimensions)
    (c : Canvas) : (drawCanvas l gs cd c).width = gs.cols * cd.width * dpr := by
  simp only [drawCanvas]
  rw [foldl_width, foldl_width, foldl_width]
  all_goals first
    | rfl
    | (intro c a
       first
         | rfl
         | (simp only [drawEntry]
            split <;> rfl))

theorem drawCanvas_height (l : List ImageData) (gs : GridSize) (cd : CellDimensions)
    (c : Canvas) : (drawCanvas l gs cd c).height = gs.rows * cd.height * dpr := by
  simp only [drawCanvas]
  rw [foldl_height, foldl_height, foldl_height]
  all_goals first
    | rfl
    | (intro c a
       first
         | rfl
         | (simp only [drawEntry]
            split <;> rfl))

theorem drawCanvas_styleWidth (l : List ImageData) (gs : GridSize) (cd : CellDimensions)
    (c : Canvas) : (drawCanvas l gs cd c).styleWidth = gs.cols * cd.width := by
  simp only [drawCanvas]
  rw [foldl_styleWidth, foldl_styleWidth, foldl_styleWidth]
  all_goals first
    | rfl
    | (intro c a
       first
         | rfl
         | (simp only [drawEntry]
            split <;> rfl))

theorem drawCanvas_styleHeight (l : List ImageData) (gs : GridSize) (cd : CellDimensions)
    (c : Canvas) : (drawCanvas l gs cd c).styleHeight = gs.rows * cd.height := by
  simp only [drawCanvas]
  rw [foldl_styleHeight, foldl_styleHeight, foldl_styleHeight]
  all_goals first
    | rfl
    | (intro c a
       first
         | rfl
         | (simp only [drawEntry]
            split <;> rfl))

theorem drawCanvas_append (l₁ l₂ : List ImageData) (gs : GridSize) (cd : CellDimensions)
    (c : Canvas) :
    drawCanvas (l₁ ++ l₂) gs cd c =
      l₂.foldl (fun c e => drawEntry gs cd c e) (drawCanvas l₁ gs cd c) := by
  simp only [drawCanvas, List.foldl_append]

theorem customHeight_300 : customHeight 300 = 420 := by
  have h : ((300 : ℤ) : ℚ) * MTG_RATIO = ((420 : ℤ) : ℚ) := by
    norm_num [ MTG_RATIO]
  rw [customHeight, h, round_intCast]

/-! ### Concrete sample data for witnesses and counterexamples -/

def sampleCanvas : Canvas :=
  { width := 0, height := 0, styleWidth := 0, styleHeight := 0, pixels := fun _ => Pixel.blank }

def gridDefault : GridSize := { rows := 7, cols := 10 }

def cellDefault : CellDimensions := { width := 300, height := 420 }

theorem cellDefault_eq : cellDefault = getActualCellDimensions 300 := by
  simp [cellDefault, getActualCellDimensions, customHeight_300]

def cardA : ImageData := { id := 1, src := "data-a", image := 10, name := "a.png", position := 0 }

def cardB : ImageData := { id := 2, src := "data-b", image := 20, name := "b.png", position := 5 }

def cardC : ImageData := { id := 3, src := "data-c", image := 30, name := "c.png", position := 5 }

/-! ### C4: derived cell height -/

/-- Claim C4: for every integer cell width `w` in `[200, 600]` the derived
cell height equals `round(w * 7/5)` in exact rational arithmetic; the
height is always recomputed from the configured width, never stored
independently; `w = 300` gives height `420`. -/
theorem C4_height_ratio (w : ℤ) (hlo : 200 ≤ w) (hhi : w ≤ 600) :
    customHeight w = round ((w : ℚ) * (7 / 5)) ∧
    (getActualCellDimensions w).height = customHeight ((getActualCellDimensions w).width) ∧
    customHeight 300 = 420 :=
  ⟨rfl, rfl, customHeight_300⟩

/-- Witness for C4 at `w = 300`. -/
theorem C4_height_ratio_witness :
    customHeight 300 = round ((300 : ℚ) * (7 / 5)) ∧
    (getActualCellDimensions 300).height = customHeight ((getActualCellDimensions 300).width) ∧
    customHeight 300 = 420 :=
  C4_height_ratio 300 (by norm_num) (by norm_num)

/-! ### C6: auto-arrange -/

theorem autoArrangeFrom_length (l : List ImageData) :
    ∀ i : ℕ, (autoArrangeFrom i l).length = l.length := by
  induction l with
  | nil => intro i; rfl
  | cons a t ih => intro i; simp [autoArrangeFrom, ih]

theorem autoArrangeFrom_position (l : List ImageData) :
    ∀ i : ℕ, (autoArrangeFrom i l).map ImageData.position
      = (List.range l.length).map fun n : ℕ => (i : ℤ) + (n : ℤ) := by
  induction l with
  | nil => intro i; rfl
  | cons a t ih =>
    intro i
    simp only [autoArrangeFrom, List.map_cons, List.length_cons, List.range_succ_eq_map,
      List.map_map, ih, Function.comp]
    congr 1
    apply List.map_congr_left
    intro n hn
    simp only [Function.comp_apply]
    push_cast
    ring

theorem autoArrangeFrom_fields (l : List ImageData) :
    ∀ i : ℕ, (autoArrangeFrom i l).map (fun e => (e.id, e.src, e.image, e.name))
      = l.map fun e => (e.id, e.src, e.image, e.name) := by
  induction l with
  | nil => intro i; rfl
  | cons a t ih => intro i; simp [autoArrangeFrom, ih]

/-- Claim C6: auto-arrange reassigns `position := list index` to every
entry in current list order, regardless of prior positions: the resulting
positions are `0, 1, ..., N-1` in original list order and all other fields
of every entry are unchanged.  The operation is a total function. -/
theorem C6_autoArrange (l : List ImageData) :
    (autoArrange l).length = l.length ∧
    (autoArrange l).map ImageData.position = (List.range l.length).map (fun n : ℕ => (n : ℤ)) ∧
    (autoArrange l).map (fun e => (e.id, e.src, e.image, e.name))
      = l.map fun e => (e.id, e.src, e.image, e.name) := by
  refine ⟨autoArrangeFrom_length l 0, ?_, autoArrangeFrom_fields l 0⟩
  rw [autoArrange, autoArrangeFrom_position l 0]
  refine List.map_congr_left fun n _ => ?_
  push_cast
  ring

/-! ### C10: reposition frame conditions -/

/-- Claim C10: `moveImage imageId p` changes only the `position` field of
the entries whose id equals `imageId`, setting it to `p`; the list length
and order are preserved, entries with a different id are unchanged, and no
entry's `id`, `src`, `image` or `name` field changes. -/
theorem C10_moveImage_frame (l : List ImageData) (imageId newPosition : ℤ) :
    (moveImage l imageId newPosition).length = l.length ∧
    List.Forall₂ (fun a b =>
        (a.id = imageId → b = { a with position := newPosition }) ∧
        (a.id ≠ imageId → b = a))
      l (moveImage l imageId newPosition) := by
  constructor
  · simp [moveImage]
  · rw [moveImage, List.forall₂_map_right_iff]
    rw [List.forall₂_same]
    intro x hx
    by_cases h : x.id = imageId <;> simp [h]

/-! ### C2: position input handling -/

theorem handlePositionChange_some (l : List ImageData) (imageId n : ℤ) :
    handlePositionChange l imageId (some n) = moveImage l imageId (n - 1) := by
  have h : jsOr ((some n).map fun m => m - 1) 0 = n - 1 := by
    by_cases h0 : n - 1 = 0
    · simp [jsOr, Option.map, h0]
    · simp [jsOr, Option.map, h0]
  rw [handlePositionChange, h]

/-- Claim C2 is refuted at a concrete input: the per-entry position field
receiving the string `"0"` (which parses to the integer `0`) stores
position `0 - 1 = -1`, so an entry's position can be negative after a
position-change operation. -/
theorem C2_position_counterexample :
    (handlePositionChange [cardA] 1 (some 0)).map ImageData.position = [-1] ∧
    ¬ ∀ e ∈ handlePositionChange [cardA] 1 (some 0), 0 ≤ e.position := by
  decide

/-- Claim C2 (amended): the per-entry position input is 1-based and
converted to 0-based internally — an input parsing to the integer `n`
stores position `n - 1` (which is negative when `n ≤ 0`), and non-numeric
or empty input defaults to position `0`.  Positions therefore remain
non-negative after a position change only when a numeric input is `≥ 1`
(given they were non-negative before). -/
theorem C2_position_amended (l : List ImageData) (imageId : ℤ) :
    (∀ n : ℤ, handlePositionChange l imageId (some n) = moveImage l imageId (n - 1)) ∧
    handlePositionChange l imageId none = moveImage l imageId 0 ∧
    ∀ n : ℤ, 1 ≤ n → (∀ e ∈ l, 0 ≤ e.position) →
      ∀ e ∈ handlePositionChange l imageId (some n), 0 ≤ e.position := by
  refine ⟨fun n => handlePositionChange_some l imageId n, rfl, ?_⟩
  intro n h1 hpos e he
  rw [handlePositionChange_some, moveImage] at he
  obtain ⟨a, ha, rfl⟩ := List.mem_map.mp he
  by_cases h : a.id = imageId
  · simp only [h, if_true]
    omega
  · simp only [h, if_false]
    exact hpos a ha

/-- Witness for the amended C2 at input `"5"` on a one-entry list. -/
theorem C2_position_amended_witness :
    handlePositionChange [cardA] 1 (some 5) = moveImage [cardA] 1 (5 - 1) ∧
    ∀ e ∈ handlePositionChange [cardA] 1 (some 5), 0 ≤ e.position :=
  ⟨(C2_position_amended [cardA] 1).1 5,
   (C2_position_amended [cardA] 1).2.2 5 (by decide) (by decide)⟩

/-! ### C3: grid dimension input handling -/

/-- Claim C3 is refuted at a concrete input: the rows field receiving the
string `"-3"` (numeric, so not malformed) stores `rows = -3`, because
`parseInt(value) || 1` only replaces `NaN` and `0` by the default `1`;
the reachable state `rows = -3` violates `rows ≥ 1`. -/
theorem C3_grid_counterexample :
    (handleGridRowsChange gridDefault (some (-3))).rows = -3 ∧
    ¬ 1 ≤ (handleGridRowsChange gridDefault (some (-3))).rows := by
  decide

/-- Claim C3 (amended): non-numeric (`NaN`) and zero input to the rows or
columns field falls back to the safe default `1`, and the other dimension
is untouched; but an input parsing to a nonzero integer `n` is stored
as-is, so the invariant `rows ≥ 1` and `cols ≥ 1` survives the change
only when every numeric input is `≥ 1` (negative numeric input violates
it). -/
theorem C3_grid_amended (gs : GridSize) :
    (handleGridRowsChange gs none).rows = 1 ∧
    (handleGridColsChange gs none).cols = 1 ∧
    (handleGridRowsChange gs (some 0)).rows = 1 ∧
    (handleGridColsChange gs (some 0)).cols = 1 ∧
    (∀ n : ℤ, n ≠ 0 → (handleGridRowsChange gs (some n)).rows = n) ∧
    (∀ n : ℤ, n ≠ 0 → (handleGridColsChange gs (some n)).cols = n) ∧
    (∀ n : ℤ, 1 ≤ n → 1 ≤ (handleGridRowsChange gs (some n)).rows ∧
      1 ≤ (handleGridColsChange gs (some n)).cols) ∧
    ∀ input : Option ℤ, (handleGridRowsChange gs input).cols = gs.cols ∧
      (handleGridColsChange gs input).rows = gs.rows := by
  refine ⟨rfl, rfl, rfl, rfl, ?_, ?_, ?_, fun input => ⟨rfl, rfl⟩⟩
  · intro n h
    simp [handleGridRowsChange, jsOr, h]
  · intro n h
    simp [handleGridColsChange, jsOr, h]
  · intro n h
    have hne : n ≠ 0 := by omega
    constructor
    · simp only [handleGridRowsChange, jsOr, hne, if_false]
      omega
    · simp only [handleGridColsChange, jsOr, hne, if_false]
      omega

/-- Witness for the amended C3 at inputs `"0"` and `"5"`. -/
theorem C3_grid_amended_witness :
    (handleGridRowsChange gridDefault (some 0)).rows = 1 ∧
    (handleGridRowsChange gridDefault (some 5)).rows = 5 ∧
    1 ≤ (handleGridRowsChange gridDefault (some 5)).rows := by
  have h := C3_grid_amended gridDefault
  exact ⟨h.2.2.1, h.2.2.2.2.1 5 (by decide), (h.2.2.2.2.2.2.1 5 (by decide)).1⟩

/-! ### C9: identity uniqueness and stability -/

theorem autoArrangeFrom_id (l : List ImageData) :
    ∀ i : ℕ, (autoArrangeFrom i l).map ImageData.id = l.map ImageData.id := by
  induction l with
  | nil => intro i; rfl
  | cons a t ih => intro i; simp [autoArrangeFrom, ih]

theorem moveImage_id (l : List ImageData) (imageId p : ℤ) :
    (moveImage l imageId p).map ImageData.id = l.map ImageData.id := by
  rw [moveImage, List.map_map]
  apply List.map_congr_left
  intro a ha
  by_cases h : a.id = imageId <;> simp [h]

/-- Claim C9 is refuted at a concrete input: two image loads completing at
the same clock millisecond (`Date.now()` returning `100` both times) with
the same in-batch file index `0` produce two entries that share id `100`,
so ids are not unique in every reachable list. -/
theorem C9_id_counterexample :
    (addImage (addImage [] 100 0 "data-a" 10 "a.png") 100 0 "data-b" 20 "b.png").map
        ImageData.id = [100, 100] ∧
    ¬ ((addImage (addImage [] 100 0 "data-a" 10 "a.png") 100 0 "data-b" 20 "b.png").map
        ImageData.id).Nodup := by
  decide

/-- Claim C9 (amended): entry ids are stable — repositioning (directly or
through the position field), auto-arrange and upload leave every existing
entry's id unchanged (upload appends one entry with id `now + index`),
and removal only drops entries — but ids are not necessarily unique,
since entries created at the same clock reading with the same batch index
collide. -/
theorem C9_id_stability (l : List ImageData) (imageId p now : ℤ) (index : ℕ)
    (srcV : String) (imgV : ℕ) (nameV : String) (input : Option ℤ) :
    (moveImage l imageId p).map ImageData.id = l.map ImageData.id ∧
    (autoArrange l).map ImageData.id = l.map ImageData.id ∧
    (handlePositionChange l imageId input).map ImageData.id = l.map ImageData.id ∧
    (addImage l now index srcV imgV nameV).map ImageData.id
      = l.map ImageData.id ++ [now + index] ∧
    removeImage l imageId ⊆ l := by
  refine ⟨moveImage_id l imageId p, autoArrangeFrom_id l 0, moveImage_id l imageId _, ?_, ?_⟩
  · simp [addImage]
  · rw [removeImage]
    exact fun a ha => List.mem_of_mem_filter ha

/-! ### C7: canvas sizes -/

/-- Claim C7: for every grid shape and cell width `w`, the canvas logical
(CSS) size is `(cols*w, rows*customHeight w)` and the physical buffer is
twice that in each dimension; with `cols = 10`, `rows = 7`, `w = 300` the
logical size is `3000 × 2940` and the physical buffer `6000 × 5880`. -/
theorem C7_canvas_sizes (l : List ImageData) (gs : GridSize) (w : ℤ) (c : Canvas) :
    ((drawCanvas l gs (getActualCellDimensions w) c).styleWidth = gs.cols * w ∧
     (drawCanvas l gs (getActualCellDimensions w) c).styleHeight = gs.rows * customHeight w ∧
     (drawCanvas l gs (getActualCellDimensions w) c).width = gs.cols * w * 2 ∧
     (drawCanvas l gs (getActualCellDimensions w) c).height = gs.rows * customHeight w * 2) ∧
    ((drawCanvas l gridDefault (getActualCellDimensions 300) c).styleWidth = 3000 ∧
     (drawCanvas l gridDefault (getActualCellDimensions 300) c).styleHeight = 2940 ∧
     (drawCanvas l gridDefault (getActualCellDimensions 300) c).width = 6000 ∧
     (drawCanvas l gridDefault (getActualCellDimensions 300) c).height = 5880) := by
  refine ⟨⟨drawCanvas_styleWidth l gs _ c, drawCanvas_styleHeight l gs _ c,
      drawCanvas_width l gs _ c, drawCanvas_height l gs _ c⟩, ?_, ?_, ?_, ?_⟩
  · rw [drawCanvas_styleWidth]
    norm_num [gridDefault, getActualCellDimensions]
  · rw [drawCanvas_styleHeight]
    norm_num [gridDefault, getActualCellDimensions, customHeight_300]
  · rw [drawCanvas_width]
    norm_num [gridDefault, getActualCellDimensions, dpr]
  · rw [drawCanvas_height]
    norm_num [gridDefault, getActualCellDimensions, customHeight_300, dpr]

/-! ### C8: deterministic rendering -/

/-- Claim C8: rendering is a deterministic pure function of the image
list, the grid shape and the cell dimensions; in particular it does not
depend on the previous contents or size of the canvas it is run on
(resizing the buffer resets it, and the whole surface is cleared), so
re-running the render with the same inputs yields a pixel-identical
buffer, with no partial-failure state. -/
theorem C8_render_deterministic (l : List ImageData) (gs : GridSize)
    (cd : CellDimensions) (c1 c2 : Canvas) :
    drawCanvas l gs cd c1 = drawCanvas l gs cd c2 := rfl

/-! ### C1 and C5: cell placement, omission, last-writer-wins -/

theorem fillRect_pixels_inside (c : Canvas) (x y w h : ℤ) (p : Pixel) (q : ℤ × ℤ)
    (hin : (c.inBoundsB q && inRectB x y w h q) = true) :
    (c.fillRect x y w h p).pixels q = p := by
  simp only [Canvas.fillRect]
  rw [if_pos hin]

theorem drawEntry_inbounds (gs : GridSize) (cd : CellDimensions) (c : Canvas) (e : ImageData)
    (h : entryRow gs e < gs.rows ∧ entryCol gs e < gs.cols) :
    drawEntry gs cd c e
      = c.fillRect (dpr * (entryCol gs e * cd.width)) (dpr * (entryRow gs e * cd.height))
          (dpr * cd.width) (dpr * cd.height) (Pixel.img e.image) := by
  simp only [drawEntry]
  rw [if_pos h]

/-- An entry whose derived cell is outside `[0, rows) × [0, cols)` leaves
the canvas untouched: either the `row < rows && col < cols` guard fails,
or the position is negative, in which case the drawn rectangle lies
entirely above the buffer (its row is at most `-1`) and is clipped away. -/
theorem drawEntry_skip (gs : GridSize) (cd : CellDimensions) (e : ImageData)
    (hc : 1 ≤ gs.cols) (hh : 1 ≤ cd.height)
    (hout : ¬(0 ≤ entryRow gs e ∧ entryRow gs e < gs.rows ∧
      0 ≤ entryCol gs e ∧ entryCol gs e < gs.cols)) (c : Canvas) :
    drawEntry gs cd c e = c := by
  have hcollt : entryCol gs e < gs.cols := Int.tmod_lt_of_pos e.position (by omega)
  by_cases hrow : entryRow gs e < gs.rows
  · have hpneg : e.position < 0 := by
      by_contra hp
      push_neg at hp
      have h1 : 0 ≤ entryRow gs e := Int.fdiv_nonneg hp (by omega)
      have h2 : 0 ≤ entryCol gs e := Int.tmod_nonneg gs.cols hp
      exact hout ⟨h1, hrow, h2, hcollt⟩
    have hrneg : entryRow gs e < 0 := by
      rw [entryRow, Int.fdiv_eq_ediv _ (by omega : (0 : ℤ) ≤ gs.cols)]
      exact Int.ediv_neg' hpneg (by omega)
    simp only [drawEntry]
    rw [if_pos ⟨hrow, hcollt⟩]
    refine Canvas.ext rfl rfl rfl rfl ?_
    funext q
    simp only [Canvas.fillRect]
    rw [if_neg]
    intro habs
    simp only [Bool.and_eq_true, Canvas.inBoundsB, inRectB, decide_eq_true_eq] at habs
    obtain ⟨⟨⟨⟨_, _⟩, hy0⟩, _⟩, ⟨⟨_, _⟩, _⟩, hy2⟩ := habs
    have key : cd.height * (entryRow gs e + 1) ≤ cd.height * 0 :=
      mul_le_mul_of_nonneg_left (by omega) (by omega)
    simp only [dpr] at hy2
    nlinarith [hy0, hy2, key]
  · simp only [drawEntry]
    rw [if_neg]
    exact fun hcond => hrow hcond.1

theorem drawCanvas_middle (gs : GridSize) (cd : CellDimensions) (e : ImageData)
    (hskip : ∀ cc : Canvas, drawEntry gs cd cc e = cc)
    (l₁ l₂ : List ImageData) (c : Canvas) :
    drawCanvas (l₁ ++ e :: l₂) gs cd c = drawCanvas (l₁ ++ l₂) gs cd c := by
  rw [drawCanvas_append l₁ (e :: l₂), drawCanvas_append l₁ l₂]
  simp only [List.foldl_cons, hskip]

/-- Claim C1: for every image entry and every grid shape with
`rows ≥ 1`, `cols ≥ 1` and positive cell dimensions, the renderer derives
`row = floor(position / cols)` and `col = position tmod cols`; when both
indices lie in `[0, rows) × [0, cols)` the entry is drawn stretched over
exactly the cell rectangle `(col*width, row*height, width, height)`
(scaled by the 2× oversampling factor), and when either index falls
outside that range the rendered buffer is identical to the render of the
same list with the entry removed: the entry is silently omitted, not an
error. -/
theorem C1_cell_placement (gs : GridSize) (cd : CellDimensions) (e : ImageData)
    (hr : 1 ≤ gs.rows) (hc : 1 ≤ gs.cols) (hw : 1 ≤ cd.width) (hh : 1 ≤ cd.height) :
    entryRow gs e = e.position.fdiv gs.cols ∧
    entryCol gs e = e.position.tmod gs.cols ∧
    (0 ≤ entryRow gs e → entryRow gs e < gs.rows →
     0 ≤ entryCol gs e → entryCol gs e < gs.cols →
      ∀ c : Canvas, drawEntry gs cd c e
        = c.fillRect (dpr * (entryCol gs e * cd.width)) (dpr * (entryRow gs e * cd.height))
            (dpr * cd.width) (dpr * cd.height) (Pixel.img e.image)) ∧
    (¬(0 ≤ entryRow gs e ∧ entryRow gs e < gs.rows ∧
       0 ≤ entryCol gs e ∧ entryCol gs e < gs.cols) →
      ∀ (l₁ l₂ : List ImageData) (c : Canvas),
        drawCanvas (l₁ ++ e :: l₂) gs cd c = drawCanvas (l₁ ++ l₂) gs cd c) := by
  refine ⟨rfl, rfl, ?_, ?_⟩
  · intro _ hrow _ hcol c
    exact drawEntry_inbounds gs cd c e ⟨hrow, hcol⟩
  · intro hout l₁ l₂ c
    exact drawCanvas_middle gs cd e (drawEntry_skip gs cd e hc hh hout) l₁ l₂ c

def cardOut : ImageData := { id := 4, src := "data-d", image := 40, name := "d.png", position := 70 }

/-- Witness for C1: on the default 7×10 grid an entry with position 70
(derived row 7, outside the grid) is omitted — the render of the
one-entry list equals the render of the empty list. -/
theorem C1_cell_placement_witness :
    drawCanvas ([] ++ cardOut :: []) gridDefault cellDefault sampleCanvas
      = drawCanvas ([] ++ []) gridDefault cellDefault sampleCanvas :=
  (C1_cell_placement gridDefault cellDefault cardOut (by decide) (by decide) (by decide)
    (by decide)).2.2.2 (by decide) [] [] sampleCanvas

/-- A draw step for an entry `e₃` resolving to a different cell than `e₂`
leaves every pixel of `e₂`'s (in-bounds) cell rectangle untouched: either
`e₃` is not drawn at all, or its position is negative and its rectangle is
entirely above the buffer, or it is drawn over the disjoint rectangle of
its own cell. -/
theorem drawEntry_pixels_other (gs : GridSize) (cd : CellDimensions) (e₂ e₃ : ImageData)
    (hc : 1 ≤ gs.cols) (hw : 1 ≤ cd.width) (hh : 1 ≤ cd.height)
    (hrow0 : 0 ≤ entryRow gs e₂) (hcol0 : 0 ≤ entryCol gs e₂)
    (hdiff : ¬(entryRow gs e₃ = entryRow gs e₂ ∧ entryCol gs e₃ = entryCol gs e₂))
    (q : ℤ × ℤ)
    (hq : inRectB (dpr * (entryCol gs e₂ * cd.width)) (dpr * (entryRow gs e₂ * cd.height))
        (dpr * cd.width) (dpr * cd.height) q = true)
    (c : Canvas) :
    (drawEntry gs cd c e₃).pixels q = c.pixels q := by
  simp only [inRectB, Bool.and_eq_true, decide_eq_true_eq] at hq
  obtain ⟨⟨⟨hx1, hx2⟩, hy1⟩, hy2⟩ := hq
  simp only [dpr] at hx1 hx2 hy1 hy2
  by_cases hguard : entryRow gs e₃ < gs.rows ∧ entryCol gs e₃ < gs.cols
  · rw [drawEntry_inbounds gs cd c e₃ hguard]
    simp only [Canvas.fillRect]
    rw [if_neg]
    intro habs
    rw [Bool.and_eq_true] at habs
    obtain ⟨-, habs⟩ := habs
    simp only [inRectB, Bool.and_eq_true, decide_eq_true_eq] at habs
    obtain ⟨⟨⟨gx1, gx2⟩, gy1⟩, gy2⟩ := habs
    simp only [dpr] at gx1 gx2 gy1 gy2
    by_cases hp3 : 0 ≤ e₃.position
    · have hr3 : 0 ≤ entryRow gs e₃ := Int.fdiv_nonneg hp3 (by omega)
      have hc3 : 0 ≤ entryCol gs e₃ := Int.tmod_nonneg gs.cols hp3
      have hcol_le : entryCol gs e₃ ≤ entryCol gs e₂ := by
        by_contra hlt
        push_neg at hlt
        have hkey : (entryCol gs e₂ + 1) * cd.width ≤ entryCol gs e₃ * cd.width :=
          mul_le_mul_of_nonneg_right (by omega) (by omega)
        nlinarith [hx2, gx1, hkey]
      have hcol_ge : entryCol gs e₂ ≤ entryCol gs e₃ := by
        by_contra hlt
        push_neg at hlt
        have hkey : (entryCol gs e₃ + 1) * cd.width ≤ entryCol gs e₂ * cd.width :=
          mul_le_mul_of_nonneg_right (by omega) (by omega)
        nlinarith [hx1, gx2, hkey]
      have hrow_le : entryRow gs e₃ ≤ entryRow gs e₂ := by
        by_contra hlt
        push_neg at hlt
        have hkey : (entryRow gs e₂ + 1) * cd.height ≤ entryRow gs e₃ * cd.height :=
          mul_le_mul_of_nonneg_right (by omega) (by omega)
        nlinarith [hy2, gy1, hkey]
      have hrow_ge : entryRow gs e₂ ≤ entryRow gs e₃ := by
        by_contra hlt
        push_neg at hlt
        have hkey : (entryRow gs e₃ + 1) * cd.height ≤ entryRow gs e₂ * cd.height :=
          mul_le_mul_of_nonneg_right (by omega) (by omega)
        nlinarith [hy1, gy2, hkey]
      exact hdiff ⟨by omega, by omega⟩
    · push_neg at hp3
      have hr3neg : entryRow gs e₃ < 0 := by
        rw [entryRow, Int.fdiv_eq_ediv _ (by omega : (0 : ℤ) ≤ gs.cols)]
        exact Int.ediv_neg' hp3 (by omega)
      have hkey : cd.height * (entryRow gs e₃ + 1) ≤ cd.height * 0 :=
        mul_le_mul_of_nonneg_left (by omega) (by omega)
      have hq2 : 0 ≤ entryRow gs e₂ * cd.height := mul_nonneg hrow0 (by omega)
      nlinarith [gy2, hkey, hq2, hy1]
  · simp only [drawEntry]
    rw [if_neg hguard]

/-- Pixels for which every entry of a list is a no-op are unchanged by the
image-drawing fold. -/
theorem foldl_drawEntry_pixels (gs : GridSize) (cd : CellDimensions) (q : ℤ × ℤ)
    (l : List ImageData)
    (h : ∀ e ∈ l, ∀ cc : Canvas, (drawEntry gs cd cc e).pixels q = cc.pixels q) :
    ∀ c : Canvas, (l.foldl (fun c e => drawEntry gs cd c e) c).pixels q = c.pixels q := by
  induction l with
  | nil => intro c; rfl
  | cons a t ih =>
    intro c
    rw [List.foldl_cons, ih (fun e he cc => h e (List.mem_cons_of_mem a he) cc),
      h a (List.mem_cons_self a t) c]

/-- Claim C5: if two or more entries resolve to the same in-bounds cell,
every pixel of that cell's rectangle in the rendered buffer shows the
image of the entry occurring latest in list order among those resolving
to that cell (last-writer-wins by draw order, which is list order, not
position order).  The winning entry `e₂` may occur anywhere in the list:
it is preceded by an arbitrary earlier entry `e₁` sharing its cell (the
claim's premise — the conclusion does not otherwise depend on `e₁`, which
is simply overdrawn) and by any entries `l₁`, `l₂`, and followed by any
entries `l₃` that resolve to other cells. -/
theorem C5_last_writer_wins (gs : GridSize) (cd : CellDimensions)
    (hr : 1 ≤ gs.rows) (hc : 1 ≤ gs.cols) (hw : 1 ≤ cd.width) (hh : 1 ≤ cd.height)
    (l₁ l₂ l₃ : List ImageData) (e₁ e₂ : ImageData) (c : Canvas) (q : ℤ × ℤ)
    (hcell : entryRow gs e₁ = entryRow gs e₂ ∧ entryCol gs e₁ = entryCol gs e₂)
    (hrow0 : 0 ≤ entryRow gs e₂) (hrow : entryRow gs e₂ < gs.rows)
    (hlater : ∀ e₃ ∈ l₃, ¬(entryRow gs e₃ = entryRow gs e₂ ∧ entryCol gs e₃ = entryCol gs e₂))
    (hq : inRectB (dpr * (entryCol gs e₂ * cd.width)) (dpr * (entryRow gs e₂ * cd.height))
        (dpr * cd.width) (dpr * cd.height) q = true) :
    (drawCanvas (l₁ ++ e₁ :: (l₂ ++ e₂ :: l₃)) gs cd c).pixels q = Pixel.img e₂.image := by
  have hcol : entryCol gs e₂ < gs.cols := Int.tmod_lt_of_pos e₂.position (by omega)
  have hcol0 : 0 ≤ entryCol gs e₂ := by
    by_contra hneg
    push_neg at hneg
    have hpneg : e₂.position < 0 := by
      by_contra hp
      push_neg at hp
      have hnn := Int.tmod_nonneg gs.cols hp
      simp only [entryCol] at hneg
      omega
    have hrneg : entryRow gs e₂ < 0 := by
      rw [entryRow, Int.fdiv_eq_ediv _ (by omega : (0 : ℤ) ≤ gs.cols)]
      exact Int.ediv_neg' hpneg (by omega)
    omega
  have hlist : l₁ ++ e₁ :: (l₂ ++ e₂ :: l₃) = (l₁ ++ e₁ :: l₂) ++ (e₂ :: l₃) := by simp
  rw [hlist, drawCanvas_append]
  simp only [List.foldl_cons]
  rw [foldl_drawEntry_pixels gs cd q l₃
    (fun e₃ he₃ cc => drawEntry_pixels_other gs cd e₂ e₃ hc hw hh hrow0 hcol0
      (hlater e₃ he₃) q hq cc)]
  rw [drawEntry_inbounds gs cd _ e₂ ⟨hrow, hcol⟩]
  apply fillRect_pixels_inside
  rw [Bool.and_eq_true]
  refine ⟨?_, hq⟩
  simp only [inRectB, Bool.and_eq_true, decide_eq_true_eq] at hq
  obtain ⟨⟨⟨hx1, hx2⟩, hy1⟩, hy2⟩ := hq
  rw [Canvas.inBoundsB, drawCanvas_width, drawCanvas_height]
  simp only [Bool.and_eq_true, decide_eq_true_eq]
  have kx : (entryCol gs e₂ + 1) * cd.width ≤ gs.cols * cd.width :=
    mul_le_mul_of_nonneg_right (by omega) (by omega)
  have ky : (entryRow gs e₂ + 1) * cd.height ≤ gs.rows * cd.height :=
    mul_le_mul_of_nonneg_right (by omega) (by omega)
  have kx0 : 0 ≤ entryCol gs e₂ * cd.width := mul_nonneg hcol0 (by omega)
  have ky0 : 0 ≤ entryRow gs e₂ * cd.height := mul_nonneg hrow0 (by omega)
  simp only [dpr] at hx1 hx2 hy1 hy2
  refine ⟨⟨⟨by linarith, ?_⟩, by linarith⟩, ?_⟩
  · simp only [dpr]
    nlinarith [kx, hx2]
  · simp only [dpr]
    nlinarith [ky, hy2]

/-- Witness for C5: `cardB` and `cardC` both have position 5 on the
default grid, and `cardA` (position 0, a different cell) follows them in
the list; at pixel `(3000, 0)` (inside cell `(0, 5)`, scaled 2×) the
rendered buffer shows `cardC`, the latest entry resolving to that cell,
even though it is not the last entry of the list. -/
theorem C5_last_writer_wins_witness :
    (drawCanvas ([] ++ cardB :: ([] ++ cardC :: [cardA])) gridDefault cellDefault
        sampleCanvas).pixels (3000, 0) = Pixel.img cardC.image :=
  C5_last_writer_wins gridDefault cellDefault (by decide) (by decide) (by decide) (by decide)
    [] [] [cardA] cardB cardC sampleCanvas (3000, 0) (by decide) (by decide) (by decide)
    (by decide) (by decide)

end DeckBuilder
